import Mathlib

/-!
Verification development for the `deflacue` cue-sheet parser and batch
orchestrator (`deflacue.py`).

The Python source is shallowly embedded below.  Python dictionaries holding
the album ("global") context and the per-track contexts are modelled as
association lists over a `Value` type covering the three kinds of values the
program ever stores (strings, integers, `None`); Python's in-place mutation
of the current context becomes explicit state passing on `ParserState`, and
Python exceptions (`ValueError`, `IndexError`, `KeyError`, `TypeError`,
`AttributeError`, `DeflacueError`) become an `Except PyErr` result.
-/

set_option maxHeartbeats 1000000

namespace Deflacue

/-- A Python runtime value as used by `deflacue.py`: contexts only ever hold
strings, integers or `None`. -/
inductive Value where
  | vstr (s : String)
  | vint (n : Int)
  | vnone
deriving DecidableEq, Repr

/-- A Python exception kind raised by the program (uncaught ones propagate). -/
inductive PyErr where
  | valueError
  | indexError
  | keyError
  | typeError
  | attributeError
  | deflacueError
deriving DecidableEq, Repr

/-- A Python dict with string keys, as an insertion-ordered association list
(Python 3 dicts preserve insertion order; updates keep the key's position). -/
abbrev Ctx : Type := List (String × Value)

/-- Python `d[k] = v` on a dict: replace in place if the key exists,
otherwise append the new binding at the end. -/
def dictSet : Ctx → String → Value → Ctx
  | [], k, v => [(k, v)]
  | (k', v') :: rest, k, v =>
      if k' = k then (k, v) :: rest else (k', v') :: dictSet rest k v

/-- Python `dict.__eq__`: same keys, same value at every key (insertion order
is ignored).  Faithful on dicts with no duplicated keys, which is the case
for every dict the program builds. -/
def dictEq (a b : Ctx) : Bool :=
  a.all (fun p => decide (List.lookup p.1 b = some p.2)) &&
    b.all (fun p => decide (List.lookup p.1 a = some p.2))

/-!
String primitives.  Lean core's `String.splitOn`, `String.toInt?`,
`String.trim` ... are defined by well-founded recursion over byte positions
and do not reduce inside the kernel, so the Python string operations are
re-implemented here structurally over the character list of the string,
with the same behaviour on the inputs the program manipulates.
-/

/-- Splitting worker: accumulates the current chunk (reversed). -/
def splitCharAux (sep : Char) : List Char → List Char → List (List Char)
  | [], acc => [acc.reverse]
  | x :: xs, acc =>
      if x == sep then acc.reverse :: splitCharAux sep xs []
      else splitCharAux sep xs (x :: acc)

/-- Python `s.split(sep)` for a one-character separator (keeps empties). -/
def strSplitChar (sep : Char) (s : String) : List String :=
  (splitCharAux sep s.data []).map String.mk

/-- Python `sep.join(parts)`. -/
def strJoin (sep : String) : List String → String
  | [] => ""
  | [x] => x
  | x :: xs => x ++ sep ++ strJoin sep xs

/-- Python `s.strip()` (whitespace from both ends). -/
def strTrim (s : String) : String :=
  String.mk (((s.data.dropWhile (fun c => c.isWhitespace)).reverse.dropWhile
    (fun c => c.isWhitespace)).reverse)

/-- Python `s.lower()`. -/
def strLower (s : String) : String := String.mk (s.data.map Char.toLower)

/-- Python `s.upper()`. -/
def strUpper (s : String) : String := String.mk (s.data.map Char.toUpper)

/-- Python `s.startswith(c)` for a one-character prefix. -/
def strStartsWith (s : String) (c : Char) : Bool :=
  match s.data with
  | [] => false
  | x :: _ => x == c

/-- Python `s.endswith(suffix)`. -/
def strEndsWith (s suffix : String) : Bool :=
  suffix.data.isSuffixOf s.data

/-- Decimal digit accumulator for `int(...)`. -/
def natDigitsAux : List Char → Nat → Option Nat
  | [], acc => some acc
  | c :: cs, acc =>
      if c.isDigit then natDigitsAux cs (acc * 10 + (c.toNat - 48)) else none

/-- Python `int(s)` on plain decimal numerals (optionally `-`-signed);
anything else raises `ValueError`, modelled as `none`. -/
def strToInt? (s : String) : Option Int :=
  match s.data with
  | [] => none
  | '-' :: rest =>
      match rest with
      | [] => none
      | _ => (natDigitsAux rest 0).map (fun n => -(n : Int))
  | cs => (natDigitsAux cs 0).map (fun n => (n : Int))

/-- Python `str(x)` on the values the program stores. -/
def pyStr : Value → String
  | .vstr s => s
  | .vint n => toString n
  | .vnone => "None"

/-- Python `s.split(' ', 1)`, demanding two parts (the program unpacks the
result into two variables, so a string without a space raises `ValueError`,
modelled as `none`). -/
def splitFirstSpace (s : String) : Option (String × String) :=
  match strSplitChar ' ' s with
  | [] => none
  | [_] => none
  | c :: rest => some (c, strJoin " " rest)

/-- Python `s.strip(' "')` as used by `CueParser._unquote`. -/
def unquote (s : String) : String :=
  String.mk (((s.data.dropWhile (fun c => c == ' ' || c == '"')).reverse.dropWhile
    (fun c => c == ' ' || c == '"')).reverse)

/-- Whitespace-splitting worker for Python `s.split()`. -/
def splitWsAux : List Char → List Char → List (List Char)
  | [], acc => [acc.reverse]
  | x :: xs, acc =>
      if x.isWhitespace then acc.reverse :: splitWsAux xs []
      else splitWsAux xs (x :: acc)

/-- Python `args.split()`: split on whitespace, discarding empty chunks. -/
def splitWs (s : String) : List String :=
  ((splitWsAux s.data []).map String.mk).filter (fun t => t != "")

/-- Embeds the `CueParser._timestr_to_sec` loop: Python's
`for i, chunk in enumerate(splitted, 0): seconds += int(chunk) * factor`
with `factor = pow(60, i)` special-cased to `1` at `i = 0`.
`none` models `int(chunk)` raising `ValueError`. -/
def secFold : List String → Nat → Option Int
  | [], _ => some 0
  | chunk :: rest, i =>
    match strToInt? chunk with
    | none => none
    | some n =>
      let factor : Int := if i = 0 then 1 else (60 : Int) ^ i
      match secFold rest (i + 1) with
      | none => none
      | some s => some (n * factor + s)

/-- Embeds `CueParser._timestr_to_sec`: drops the final `:`-separated chunk,
reverses the rest and sums with base-60 positional weights. -/
def timestr_to_sec (timestr : String) : Option Int :=
  secFold ((strSplitChar ':' timestr).dropLast).reverse 0

/-- Embeds `CueParser._timestr_to_samples`: seconds at 44100 Hz plus frames at
`44100 // 75` samples per frame. -/
def timestr_to_samples (timestr : String) : Option Int :=
  let seconds_factor : Int := 44100
  let frames_factor : Int := seconds_factor / 75
  match timestr_to_sec timestr with
  | none => none
  | some full_seconds =>
    match (strSplitChar ':' timestr).getLast? with
    | none => none
    | some last =>
      match strToInt? last with
      | none => none
      | some frames => some (full_seconds * seconds_factor + frames * frames_factor)

/-- The mutable state of `CueParser` during `__init__`: the global (album)
dict, the list of track dicts, and which dict `_current_context` points to
(`none` = the global dict, `some i` = the `i`-th track dict).  `warnings`
records the `logging.warning` calls for unknown commands. -/
structure ParserState where
  context_global : Ctx
  context_tracks : List Ctx
  current : Option Nat
  warnings : List String
deriving DecidableEq, Repr

/-- The fresh state built at the top of `CueParser.__init__`. -/
def init_state : ParserState :=
  { context_global :=
      [("PERFORMER", .vstr "Unknown"), ("SONGWRITER", .vnone),
       ("ALBUM", .vstr "Unknown"), ("GENRE", .vstr "Unknown"),
       ("DATE", .vnone), ("FILE", .vnone), ("COMMENT", .vnone)],
    context_tracks := [], current := none, warnings := [] }

/-- The dict `self._current_context` points to. -/
def curCtx (st : ParserState) : Ctx :=
  match st.current with
  | none => st.context_global
  | some i => st.context_tracks.getD i []

/-- Embeds `self._current_context[k] = v`: mutate whichever dict is current. -/
def setCur (st : ParserState) (k : String) (v : Value) : ParserState :=
  match st.current with
  | none => { st with context_global := dictSet st.context_global k v }
  | some i =>
      { st with context_tracks :=
          st.context_tracks.set i (dictSet (st.context_tracks.getD i []) k v) }

/-- Embeds `CueParser._in_global_context`: note the source compares with `==`
(Python dict value equality), not with `is`. -/
def in_global_context (st : ParserState) : Bool :=
  dictEq (curCtx st) st.context_global

/-- Embeds `CueParser.cmd_rem`: `subcommand, subargs = args.split(' ', 1)` (a
`ValueError` if there is no space), unquoting only a `"`-initial value. -/
def cmd_rem (st : ParserState) (args : String) : Except PyErr ParserState :=
  match splitFirstSpace args with
  | none => .error .valueError
  | some (subcommand, subargs) =>
    let subargs := if strStartsWith subargs '"' then unquote subargs else subargs
    .ok (setCur st (strUpper subcommand) (.vstr subargs))

/-- Embeds `CueParser.cmd_performer`. -/
def cmd_performer (st : ParserState) (args : String) : ParserState :=
  setCur st "PERFORMER" (.vstr (unquote args))

/-- Embeds `CueParser.cmd_title`: `ALBUM` when `_in_global_context()`, else
`TITLE`, written to the current context either way. -/
def cmd_title (st : ParserState) (args : String) : ParserState :=
  let unquoted := unquote args
  if in_global_context st then setCur st "ALBUM" (.vstr unquoted)
  else setCur st "TITLE" (.vstr unquoted)

/-- Embeds `CueParser.cmd_file`: `args.rsplit(' ', 1)[0]`, unquoted (never fails:
with no space, `rsplit` returns the whole string as the single part). -/
def cmd_file (st : ParserState) (args : String) : ParserState :=
  let parts := strSplitChar ' ' args
  let filename :=
    unquote (match parts with
      | [] => args
      | [x] => x
      | _ => strJoin " " parts.dropLast)
  setCur st "FILE" (.vstr filename)

/-- Embeds `CueParser.cmd_index`: `timestr = args.split()[1]` (an `IndexError`
if fewer than two tokens), then sets `INDEX` and `POS_START_SAMPLES`
(`int` failure inside the conversion is a `ValueError`). -/
def cmd_index (st : ParserState) (args : String) : Except PyErr ParserState :=
  match (splitWs args)[1]? with
  | none => .error .indexError
  | some timestr =>
    match timestr_to_samples timestr with
    | none => .error .valueError
    | some n =>
      .ok (setCur (setCur st "INDEX" (.vstr timestr)) "POS_START_SAMPLES" (.vint n))

/-- Embeds `CueParser.cmd_track`: `num, _ = args.split()` (a `ValueError` unless
exactly two tokens), deep-copies the global context, appends it to the track
list, makes it current and sets its `TRACK_NUM` to `int(num)`. -/
def cmd_track (st : ParserState) (args : String) : Except PyErr ParserState :=
  match splitWs args with
  | [num, _] =>
    match strToInt? num with
    | none => .error .valueError
    | some n =>
      .ok { st with
        context_tracks :=
          st.context_tracks ++ [dictSet st.context_global "TRACK_NUM" (.vint n)],
        current := some st.context_tracks.length }
  | _ => .error .valueError

/-- Embeds `CueParser.cmd_flags`: explicitly a no-op. -/
def cmd_flags (st : ParserState) (_args : String) : ParserState := st

/-- The `getattr(self, 'cmd_%s' % command.lower(), None)` dispatch plus
the warning for an unrecognized keyword. -/
def dispatch (st : ParserState) (command args : String) : Except PyErr ParserState :=
  match strLower command with
  | "rem" => cmd_rem st args
  | "performer" => .ok (cmd_performer st args)
  | "title" => .ok (cmd_title st args)
  | "file" => .ok (cmd_file st args)
  | "index" => cmd_index st args
  | "track" => cmd_track st args
  | "flags" => .ok (cmd_flags st args)
  | _ => .ok { st with warnings := st.warnings ++ [command] }

/-- One iteration of the command loop in `CueParser.__init__`: skip blank
lines, split off the command keyword (`ValueError` when the stripped line
has no space), and dispatch on it. -/
def process_line (st : ParserState) (line : String) : Except PyErr ParserState :=
  if strTrim line = "" then .ok st
  else
    match splitFirstSpace (strTrim line) with
    | none => .error .valueError
    | some (command, args) => dispatch st command args

/-- The post-pass at the end of `CueParser.__init__`: each track's
`POS_END_SAMPLES` becomes the next track's `POS_START_SAMPLES`; the
`IndexError` past the last track is caught (yielding `None`), but a missing
`POS_START_SAMPLES` key on the next track is an uncaught `KeyError`. -/
def post_pass : List Ctx → Except PyErr (List Ctx)
  | [] => .ok []
  | [t] => .ok [dictSet t "POS_END_SAMPLES" .vnone]
  | t :: next :: rest =>
    match List.lookup "POS_START_SAMPLES" next with
    | none => .error .keyError
    | some v =>
      match post_pass (next :: rest) with
      | .error e => .error e
      | .ok rest' => .ok (dictSet t "POS_END_SAMPLES" v :: rest')

/-- The whole of `CueParser.__init__` after the file has been read and
split into lines: the command loop followed by the post-pass. -/
def cue_parse (lines : List String) : Except PyErr ParserState :=
  match List.foldlM process_line init_state lines with
  | .error e => .error e
  | .ok st =>
    match post_pass st.context_tracks with
    | .error e => .error e
    | .ok tracks => .ok { st with context_tracks := tracks }

/-- Whether a raw line is a `TRACK` command (non-blank, and its first
space-separated token lower-cases to `track`). -/
def is_track_line (line : String) : Bool :=
  match splitFirstSpace (strTrim line) with
  | some (c, _) => strLower c == "track"
  | none => false

/-! ### Helper lemmas about the embedded dictionaries -/

theorem lookup_dictSet_self (d : Ctx) (k : String) (v : Value) :
    List.lookup k (dictSet d k v) = some v := by
  induction d with
  | nil => simp [dictSet, List.lookup]
  | cons p rest ih =>
    by_cases h : p.1 = k
    · simp [dictSet, h, List.lookup]
    · have hbe : (k == p.1) = false := by
        simp only [beq_eq_false_iff_ne]
        exact fun e => h e.symm
      simp [dictSet, h, List.lookup, hbe, ih]

theorem lookup_dictSet_ne (d : Ctx) (k k' : String) (v : Value) (h : k' ≠ k) :
    List.lookup k' (dictSet d k v) = List.lookup k' d := by
  induction d with
  | nil =>
    have hbe : (k' == k) = false := beq_eq_false_iff_ne.mpr h
    simp [dictSet, List.lookup, hbe]
  | cons p rest ih =>
    by_cases hp : p.1 = k
    · subst hp
      have hbe : (k' == p.1) = false := beq_eq_false_iff_ne.mpr h
      simp [dictSet, List.lookup, hbe]
    · simp only [dictSet, if_neg hp, List.lookup]
      cases hbe : (k' == p.1) <;> simp [ih]

theorem secFold_pair (b a : String) (ss mm : Int)
    (hb : strToInt? b = some ss) (ha : strToInt? a = some mm) :
    secFold [b, a] 0 = some (ss * 1 + (mm * 60 + 0)) := by
  simp [secFold, hb, ha]

/-- A time-code formula lemma: on a three-component `mm:ss:ff` time-code
the conversion yields `(mm*60 + ss)*44100 + ff*(44100/75)`, which factors
as `((mm*60 + ss)*75 + ff) * 588`. -/
theorem timestr_to_samples_eq (s a b c : String) (mm ss ff : Int)
    (hs : strSplitChar ':' s = [a, b, c]) (ha : strToInt? a = some mm)
    (hb : strToInt? b = some ss) (hc : strToInt? c = some ff) :
    timestr_to_samples s = some ((mm * 60 + ss) * 44100 + ff * ((44100 : Int) / 75))
    ∧ (mm * 60 + ss) * 44100 + ff * ((44100 : Int) / 75)
        = ((mm * 60 + ss) * 75 + ff) * 588 := by
  have hdiv : ((44100 : Int) / 75) = 588 := by decide
  have hsec : timestr_to_sec s = some (ss * 1 + (mm * 60 + 0)) := by
    unfold timestr_to_sec
    rw [hs]
    simpa using secFold_pair b a ss mm hb ha
  constructor
  · unfold timestr_to_samples
    rw [hsec, hs]
    simp only [List.getLast?_cons_cons, List.getLast?_singleton, hc]
    simp only [Option.some.injEq]
    ring
  · rw [hdiv]; ring

/-- C2: for every time-code string of the shape `mm:ss:ff` with decimal
integer components, the timecode-to-samples conversion returns
`(mm*60 + ss) * 44100 + ff * (44100/75)`; it is deterministic (it is a
function of the string), `samples "00:01:00" = 44100` and
`samples "00:00:75" = 44100`, and it is strictly monotonic in the denoted
time `(mm*60 + ss)*75 + ff`. -/
theorem timecode_conversion_spec
    (s1 s2 a1 b1 c1 a2 b2 c2 : String) (m1 n1 f1 m2 n2 f2 : Int)
    (hs1 : strSplitChar ':' s1 = [a1, b1, c1]) (ha1 : strToInt? a1 = some m1)
    (hb1 : strToInt? b1 = some n1) (hc1 : strToInt? c1 = some f1)
    (hs2 : strSplitChar ':' s2 = [a2, b2, c2]) (ha2 : strToInt? a2 = some m2)
    (hb2 : strToInt? b2 = some n2) (hc2 : strToInt? c2 = some f2) :
    timestr_to_samples s1 = some ((m1 * 60 + n1) * 44100 + f1 * ((44100 : Int) / 75))
    ∧ ((m1 * 60 + n1) * 75 + f1 < (m2 * 60 + n2) * 75 + f2 →
        ∀ v1 v2, timestr_to_samples s1 = some v1 → timestr_to_samples s2 = some v2 →
          v1 < v2)
    ∧ timestr_to_samples "00:01:00" = some 44100
    ∧ timestr_to_samples "00:00:75" = some 44100 := by
  obtain ⟨he1, hf1⟩ := timestr_to_samples_eq s1 a1 b1 c1 m1 n1 f1 hs1 ha1 hb1 hc1
  obtain ⟨he2, hf2⟩ := timestr_to_samples_eq s2 a2 b2 c2 m2 n2 f2 hs2 ha2 hb2 hc2
  refine ⟨he1, ?_, by decide, by decide⟩
  intro hlt v1 v2 hv1 hv2
  rw [he1] at hv1
  rw [he2] at hv2
  have e1 : v1 = ((m1 * 60 + n1) * 75 + f1) * 588 := by
    rw [← hf1]; exact (Option.some.injEq _ _ ▸ hv1).symm
  have e2 : v2 = ((m2 * 60 + n2) * 75 + f2) * 588 := by
    rw [← hf2]; exact (Option.some.injEq _ _ ▸ hv2).symm
  rw [e1, e2]
  have h588 : (0 : Int) < 588 := by norm_num
  exact mul_lt_mul_of_pos_right hlt h588

/-- C2 witness: the theorem applied to the concrete time-codes
`00:00:01` and `00:01:00`. -/
theorem timecode_conversion_spec_witness :
    timestr_to_samples "00:00:01"
      = some ((0 * 60 + 0) * 44100 + 1 * ((44100 : Int) / 75))
    ∧ timestr_to_samples "00:01:00" = some 44100 :=
  ⟨(timecode_conversion_spec "00:00:01" "00:01:00" "00" "00" "01" "00" "01" "00"
      0 0 1 0 1 0 (by decide) (by decide) (by decide) (by decide)
      (by decide) (by decide) (by decide) (by decide)).1,
   (timecode_conversion_spec "00:00:01" "00:01:00" "00" "00" "01" "00" "01" "00"
      0 0 1 0 1 0 (by decide) (by decide) (by decide) (by decide)
      (by decide) (by decide) (by decide) (by decide)).2.2.1⟩

/-- Folding over `Except` distributes over list appending. -/
theorem foldlM_except_append {α σ ε : Type} (f : σ → α → Except ε σ)
    (l1 l2 : List α) (s : σ) :
    List.foldlM f s (l1 ++ l2)
      = (List.foldlM f s l1).bind (fun s' => List.foldlM f s' l2) := by
  induction l1 generalizing s with
  | nil => rfl
  | cons a l ih =>
    simp only [List.cons_append, List.foldlM_cons]
    cases h : f s a with
    | error e => simp [h, Except.bind, Bind.bind]
    | ok s1 => simp [h, Except.bind, Bind.bind, ih]

/-- C7: a non-blank line whose first whitespace-separated token is not a
recognized command keyword (case-insensitively) is skipped: the parser
returns the state unchanged apart from appending one warning diagnostic,
raises no error, and the fold over the remaining lines continues from that
state. -/
theorem unknown_command_skipped (st : ParserState) (line command args : String)
    (rest : List String)
    (hblank : ¬ strTrim line = "")
    (hsplit : splitFirstSpace (strTrim line) = some (command, args))
    (hu : ∀ c ∈ (["rem", "performer", "title", "file", "index", "track",
        "flags"] : List String), strLower command ≠ c) :
    process_line st line = .ok { st with warnings := st.warnings ++ [command] }
    ∧ List.foldlM process_line st (line :: rest)
        = List.foldlM process_line { st with warnings := st.warnings ++ [command] } rest := by
  have h1 : process_line st line = .ok { st with warnings := st.warnings ++ [command] } := by
    unfold process_line
    rw [if_neg hblank, hsplit]
    show dispatch st command args = _
    unfold dispatch
    split
    · exact absurd (by assumption) (hu _ (by simp))
    · exact absurd (by assumption) (hu _ (by simp))
    · exact absurd (by assumption) (hu _ (by simp))
    · exact absurd (by assumption) (hu _ (by simp))
    · exact absurd (by assumption) (hu _ (by simp))
    · exact absurd (by assumption) (hu _ (by simp))
    · exact absurd (by assumption) (hu _ (by simp))
    · rfl
  refine ⟨h1, ?_⟩
  rw [List.foldlM_cons, h1]
  rfl

/-- C7 witness: an unknown `PREGAP` command inside an otherwise empty
sheet is skipped with a warning. -/
theorem unknown_command_skipped_witness :
    process_line init_state "PREGAP 00:02:00"
      = .ok { init_state with warnings := init_state.warnings ++ ["PREGAP"] } :=
  (unknown_command_skipped init_state "PREGAP 00:02:00" "PREGAP" "00:02:00" []
    (by decide) (by decide) (by decide)).1

/-- C8: a non-blank line with no space after its first token makes the
command-splitting `ValueError` escape: that line's processing fails, and
the parse of any sheet reaching that line fails as a whole. -/
theorem single_token_line_rejected (st : ParserState) (l1 l2 : List String)
    (line : String)
    (hblank : ¬ strTrim line = "")
    (hsplit : splitFirstSpace (strTrim line) = none)
    (hpre : List.foldlM process_line init_state l1 = .ok st) :
    process_line st line = .error .valueError
    ∧ cue_parse (l1 ++ line :: l2) = .error .valueError := by
  have h1 : process_line st line = .error .valueError := by
    unfold process_line
    rw [if_neg hblank, hsplit]
  refine ⟨h1, ?_⟩
  have h2 : List.foldlM process_line init_state (l1 ++ line :: l2)
      = .error .valueError := by
    rw [foldlM_except_append, hpre]
    show List.foldlM process_line st (line :: l2) = _
    rw [List.foldlM_cons, h1]
    rfl
  unfold cue_parse
  rw [h2]

/-- C8 witness: the single-token line `REM` aborts the sheet. -/
theorem single_token_line_rejected_witness :
    cue_parse ["REM"] = .error .valueError :=
  (single_token_line_rejected init_state [] [] "REM"
    (by decide) (by decide) (by rfl)).2

/-- Writing through the current context touches no other already-created
track record. -/
theorem setCur_frame_at (st : ParserState) (k : String) (v : Value) (j : Nat)
    (hj : j < st.context_tracks.length) (hcur : st.current ≠ some j) :
    (setCur st k v).context_tracks[j]? = st.context_tracks[j]?
    ∧ (setCur st k v).current ≠ some j
    ∧ j < (setCur st k v).context_tracks.length := by
  unfold setCur
  cases h : st.current with
  | none => exact ⟨rfl, by simp [h], hj⟩
  | some i =>
    have hij : i ≠ j := fun he => hcur (by rw [h, he])
    exact ⟨List.getElem?_set_ne hij, by simp [h]; exact fun he => hcur (by rw [h, he]),
      by simpa [List.length_set] using hj⟩

/-- Processing one line never alters a track record that is not the
current context, keeps the current pointer away from it, and keeps it in
range. -/
theorem process_line_frame (st st' : ParserState) (line : String) (j : Nat)
    (hj : j < st.context_tracks.length) (hcur : st.current ≠ some j)
    (h : process_line st line = .ok st') :
    st'.context_tracks[j]? = st.context_tracks[j]?
    ∧ st'.current ≠ some j ∧ j < st'.context_tracks.length := by
  have hset := fun (k : String) (v : Value) => setCur_frame_at st k v j hj hcur
  have hset2 : ∀ (k1 : String) (v1 : Value) (k2 : String) (v2 : Value),
      (setCur (setCur st k1 v1) k2 v2).context_tracks[j]? = st.context_tracks[j]?
      ∧ (setCur (setCur st k1 v1) k2 v2).current ≠ some j
      ∧ j < (setCur (setCur st k1 v1) k2 v2).context_tracks.length := by
    intro k1 v1 k2 v2
    obtain ⟨e1, c1, l1⟩ := hset k1 v1
    obtain ⟨e2, c2, l2⟩ := setCur_frame_at (setCur st k1 v1) k2 v2 j l1 c1
    exact ⟨e2.trans e1, c2, l2⟩
  unfold process_line at h
  split at h
  · injection h with h
    subst h
    exact ⟨rfl, hcur, hj⟩
  · split at h
    · exact Except.noConfusion h
    · unfold dispatch at h
      split at h
      · -- REM
        unfold cmd_rem at h
        split at h
        · exact Except.noConfusion h
        · injection h with h
          subst h
          exact hset _ _
      · -- PERFORMER
        injection h with h
        subst h
        exact hset _ _
      · -- TITLE
        injection h with h
        subst h
        unfold cmd_title
        split
        · exact hset _ _
        · exact hset _ _
      · -- FILE
        injection h with h
        subst h
        exact hset _ _
      · -- INDEX
        unfold cmd_index at h
        split at h
        · exact Except.noConfusion h
        · split at h
          · exact Except.noConfusion h
          · injection h with h
            subst h
            exact hset2 _ _ _ _
      · -- TRACK
        unfold cmd_track at h
        split at h
        · split at h
          · exact Except.noConfusion h
          · injection h with h
            subst h
            refine ⟨?_, ?_, ?_⟩
            · simp only [List.getElem?_append, if_pos hj]
            · intro he
              have : st.context_tracks.length = j := by
                injection he
              omega
            · simp only [List.length_append, List.length_singleton]
              omega
        · exact Except.noConfusion h
      · -- FLAGS
        injection h with h
        subst h
        exact ⟨rfl, hcur, hj⟩
      · -- unknown command
        injection h with h
        subst h
        exact ⟨rfl, hcur, hj⟩

/-- C3: a `TRACK` command snapshots the album context; afterwards, for any
already-created track record other than the current context, processing any
further command lines (which edit only the global context, the current
track, or append fresh tracks) leaves every field of that track record
unchanged. -/
theorem track_snapshot_frame (lines : List String) (st st' : ParserState)
    (j : Nat)
    (hj : j < st.context_tracks.length) (hcur : st.current ≠ some j)
    (h : List.foldlM process_line st lines = .ok st') :
    st'.context_tracks[j]? = st.context_tracks[j]? := by
  induction lines generalizing st with
  | nil =>
    rw [List.foldlM_nil] at h
    injection h with h
    subst h
    rfl
  | cons l ls ih =>
    rw [List.foldlM_cons] at h
    cases hpl : process_line st l with
    | error e =>
      rw [hpl] at h
      exact Except.noConfusion h
    | ok s1 =>
      rw [hpl] at h
      obtain ⟨e1, c1, l1⟩ := process_line_frame st s1 l j hj hcur hpl
      exact (ih s1 l1 c1 h).trans e1

/-- A two-track state used to witness the frame theorems. -/
def frameDemoSt : ParserState :=
  { context_global := init_state.context_global,
    context_tracks := [dictSet init_state.context_global "TRACK_NUM" (.vint 1),
                       dictSet init_state.context_global "TRACK_NUM" (.vint 2)],
    current := some 1, warnings := [] }

/-- The state after a further `REM` edit to the second (current) track. -/
def frameDemoSt' : ParserState :=
  (List.foldlM process_line frameDemoSt ["REM GENRE Rock"]).toOption.getD init_state

/-- C3 witness: a `REM` edit to the current (second) track leaves the first
track record untouched. -/
theorem track_snapshot_frame_witness :
    frameDemoSt'.context_tracks[0]? = frameDemoSt.context_tracks[0]? :=
  track_snapshot_frame ["REM GENRE Rock"] frameDemoSt frameDemoSt' 0
    (by decide) (by decide) (by rfl)

theorem setCur_tracks_length (st : ParserState) (k : String) (v : Value) :
    (setCur st k v).context_tracks.length = st.context_tracks.length := by
  unfold setCur
  cases st.current <;> simp [List.length_set]

/-- Each successfully processed line grows the track list by one exactly
when it is a `TRACK` command, and otherwise leaves its length alone. -/
theorem process_line_tracks_length (st st' : ParserState) (line : String)
    (h : process_line st line = .ok st') :
    st'.context_tracks.length
      = st.context_tracks.length + (if is_track_line line then 1 else 0) := by
  have hempty : splitFirstSpace "" = none := by decide
  unfold process_line at h
  split at h
  · injection h with h
    subst h
    have hf : is_track_line line = false := by
      unfold is_track_line
      rw [show strTrim line = "" by assumption, hempty]
    rw [hf]
    simp
  · split at h
    · exact Except.noConfusion h
    · rename_i command args hsp
      have htl : is_track_line line = (strLower command == "track") := by
        unfold is_track_line
        rw [hsp]
      unfold dispatch at h
      split at h
      all_goals rename_i hle
      · -- REM
        unfold cmd_rem at h
        split at h
        · exact Except.noConfusion h
        · injection h with h
          subst h
          rw [htl, hle]
          simp [setCur_tracks_length]
      · injection h with h
        subst h
        rw [htl, hle]
        simp [cmd_performer, setCur_tracks_length]
      · injection h with h
        subst h
        rw [htl, hle]
        have : (cmd_title st args).context_tracks.length
            = st.context_tracks.length := by
          unfold cmd_title
          split <;> simp [setCur_tracks_length]
        simp [this]
      · injection h with h
        subst h
        rw [htl, hle]
        simp [cmd_file, setCur_tracks_length]
      · unfold cmd_index at h
        split at h
        · exact Except.noConfusion h
        · split at h
          · exact Except.noConfusion h
          · injection h with h
            subst h
            rw [htl, hle]
            simp [setCur_tracks_length]
      · -- TRACK
        unfold cmd_track at h
        split at h
        · split at h
          · exact Except.noConfusion h
          · injection h with h
            subst h
            rw [htl, hle]
            simp
        · exact Except.noConfusion h
      · injection h with h
        subst h
        rw [htl, hle]
        simp [cmd_flags]
      · injection h with h
        subst h
        have hne : ¬ strLower command = "track" := by assumption
        rw [htl, beq_eq_false_iff_ne.mpr hne]
        simp


/-- Over a whole successful run of the command loop, the number of track
records grows by exactly the number of `TRACK` lines. -/
theorem foldl_tracks_length (lines : List String) (st st' : ParserState)
    (h : List.foldlM process_line st lines = .ok st') :
    st'.context_tracks.length
      = st.context_tracks.length + lines.countP is_track_line := by
  induction lines generalizing st with
  | nil =>
    rw [List.foldlM_nil] at h
    injection h with h
    subst h
    simp
  | cons l ls ih =>
    rw [List.foldlM_cons] at h
    cases hpl : process_line st l with
    | error e =>
      rw [hpl] at h
      exact Except.noConfusion h
    | ok s1 =>
      rw [hpl] at h
      have h1 := process_line_tracks_length st s1 l hpl
      have h2 := ih s1 h
      rw [h2, h1, List.countP_cons]
      omega

/-- A successfully processed `TRACK` line appends exactly one new track
record at the end of the track list. -/
theorem process_line_track_appends (st st' : ParserState) (line : String)
    (htr : is_track_line line = true) (h : process_line st line = .ok st') :
    ∃ tr, st'.context_tracks = st.context_tracks ++ [tr] := by
  have hempty : splitFirstSpace "" = none := by decide
  unfold process_line at h
  split at h
  · unfold is_track_line at htr
    rw [show strTrim line = "" by assumption, hempty] at htr
    exact Bool.noConfusion htr
  · split at h
    · exact Except.noConfusion h
    · rename_i command args hsp
      unfold is_track_line at htr
      rw [hsp] at htr
      have hcmd : strLower command = "track" := by
        exact beq_iff_eq.mp htr
      unfold dispatch at h
      split at h
      all_goals rename_i hle
      · rw [hcmd] at hle
        exact absurd hle (by decide)
      · rw [hcmd] at hle
        exact absurd hle (by decide)
      · rw [hcmd] at hle
        exact absurd hle (by decide)
      · rw [hcmd] at hle
        exact absurd hle (by decide)
      · rw [hcmd] at hle
        exact absurd hle (by decide)
      · unfold cmd_track at h
        split at h
        · split at h
          · exact Except.noConfusion h
          · injection h with h
            subst h
            exact ⟨_, rfl⟩
        · exact Except.noConfusion h
      · rw [hcmd] at hle
        exact absurd hle (by decide)
      · exact absurd hcmd (by assumption)

/-- The post-pass: lengths are preserved, `POS_START_SAMPLES` lookups are
untouched, every non-last track's `POS_END_SAMPLES` equals the next track's
`POS_START_SAMPLES`, and the last track's `POS_END_SAMPLES` is `None`. -/
theorem post_pass_spec (tracks out : List Ctx) (h : post_pass tracks = .ok out) :
    out.length = tracks.length
    ∧ (∀ (i : Nat) (t t0 : Ctx), out[i]? = some t → tracks[i]? = some t0 →
        List.lookup "POS_START_SAMPLES" t = List.lookup "POS_START_SAMPLES" t0)
    ∧ (∀ (i : Nat) (t t' : Ctx), out[i]? = some t → out[i + 1]? = some t' →
        ∃ v, List.lookup "POS_END_SAMPLES" t = some v
          ∧ List.lookup "POS_START_SAMPLES" t' = some v)
    ∧ (∀ t : Ctx, out.getLast? = some t →
        List.lookup "POS_END_SAMPLES" t = some Value.vnone) := by
  induction tracks generalizing out with
  | nil =>
    injection h with h
    subst h
    refine ⟨rfl, ?_, ?_, ?_⟩
    · intro i t t0 ht
      simp at ht
    · intro i t t' ht
      simp at ht
    · intro t ht
      simp at ht
  | cons t0 rest ih =>
    cases rest with
    | nil =>
      injection h with h
      subst h
      refine ⟨rfl, ?_, ?_, ?_⟩
      · intro i t t0' ht ht0
        cases i with
        | zero =>
          simp at ht ht0
          subst ht
          subst ht0
          exact lookup_dictSet_ne _ _ _ _ (by decide)
        | succ n => simp at ht
      · intro i t t' _ ht'
        cases i with
        | zero => simp at ht'
        | succ n => simp at ht'
      · intro t ht
        simp at ht
        subst ht
        exact lookup_dictSet_self _ _ _
    | cons t1 rest' =>
      unfold post_pass at h
      split at h
      · exact Except.noConfusion h
      · rename_i v hv
        split at h
        · exact Except.noConfusion h
        · rename_i out1 hrec
          injection h with h
          subst h
          obtain ⟨hlen, hstart, hpair, hlast⟩ := ih out1 hrec
          have hne : ("POS_START_SAMPLES" : String) ≠ "POS_END_SAMPLES" := by decide
          refine ⟨by simp [hlen], ?_, ?_, ?_⟩
          · intro i t t0' ht ht0
            cases i with
            | zero =>
              simp at ht ht0
              subst ht
              subst ht0
              exact lookup_dictSet_ne _ _ _ _ hne
            | succ n =>
              simp at ht ht0
              exact hstart n t t0' ht ht0
          · intro i t t' ht ht'
            cases i with
            | zero =>
              simp at ht ht'
              subst ht
              refine ⟨v, lookup_dictSet_self _ _ _, ?_⟩
              have h10 : (t1 :: rest')[0]? = some t1 := by simp
              have := hstart 0 t' t1 ht' h10
              rw [this, hv]
            | succ n =>
              simp at ht ht'
              exact hpair n t t' ht ht'
          · intro t ht
            have hne0 : out1 ≠ [] := by
              intro he
              rw [he] at hlen
              simp at hlen
            cases out1 with
            | nil => exact absurd rfl hne0
            | cons o1 os =>
              rw [List.getLast?_cons_cons] at ht
              exact hlast t ht

/-- C1: on every successfully parsed sheet, the parser yields exactly as
many track records as there are `TRACK` command lines, each `TRACK` line
appending its record at the end of the list (file order); after the
post-pass every non-last track's `POS_END_SAMPLES` equals the next track's
`POS_START_SAMPLES`, and the last track's `POS_END_SAMPLES` is `None`. -/
theorem parser_track_invariants (lines : List String) (st : ParserState)
    (h : cue_parse lines = .ok st) :
    st.context_tracks.length = lines.countP is_track_line
    ∧ (∀ (i : Nat) (t t' : Ctx), st.context_tracks[i]? = some t →
        st.context_tracks[i + 1]? = some t' →
        ∃ v, List.lookup "POS_END_SAMPLES" t = some v
          ∧ List.lookup "POS_START_SAMPLES" t' = some v)
    ∧ (∀ t : Ctx, st.context_tracks.getLast? = some t →
        List.lookup "POS_END_SAMPLES" t = some Value.vnone)
    ∧ (∀ st0 st1 line, is_track_line line = true →
        process_line st0 line = .ok st1 →
        ∃ tr, st1.context_tracks = st0.context_tracks ++ [tr]) := by
  unfold cue_parse at h
  split at h
  · exact Except.noConfusion h
  · rename_i mid hfold
    split at h
    · exact Except.noConfusion h
    · rename_i out hpost
      injection h with h
      subst h
      obtain ⟨hlen, _, hpair, hlast⟩ := post_pass_spec mid.context_tracks out hpost
      have hmid := foldl_tracks_length lines init_state mid hfold
      refine ⟨?_, hpair, hlast, ?_⟩
      · simpa [init_state, hlen] using hmid
      · intro st0 st1 line htr hpl
        exact process_line_track_appends st0 st1 line htr hpl

/-- The sheet of spec section 8 (two tracks over one FLAC image). -/
def demoLines : List String :=
  ["PERFORMER \"Artist\"", "TITLE \"Album\"", "FILE \"disc.flac\" WAVE",
   "TRACK 01 AUDIO", "TITLE \"Song One\"", "INDEX 01 00:00:00",
   "TRACK 02 AUDIO", "TITLE \"Song Two\"", "INDEX 01 03:30:00"]

/-- The parse result of the demo sheet. -/
def demoParsed : ParserState :=
  (cue_parse demoLines).toOption.getD init_state

/-- C1 witness: the demo sheet yields exactly as many track records as it
has `TRACK` lines. -/
theorem parser_track_invariants_witness :
    demoParsed.context_tracks.length = demoLines.countP is_track_line :=
  (parser_track_invariants demoLines demoParsed (by rfl)).1

/-- In a dict without duplicated keys, every stored pair is found again. -/
theorem lookup_mem_of_nodup (d : Ctx) (k : String) (v : Value)
    (hnd : (d.map Prod.fst).Nodup) (hm : (k, v) ∈ d) :
    List.lookup k d = some v := by
  induction d with
  | nil => simp at hm
  | cons p rest ih =>
    rw [List.map_cons, List.nodup_cons] at hnd
    rcases List.mem_cons.mp hm with he | hmr
    · subst he
      simp [List.lookup]
    · have hk : k ≠ p.1 := by
        intro he
        exact hnd.1 (he ▸ List.mem_map.mpr ⟨(k, v), hmr, rfl⟩)
      have hbe : (k == p.1) = false := beq_eq_false_iff_ne.mpr hk
      simp [List.lookup, hbe]
      exact ih hnd.2 hmr

/-- Python dict equality is reflexive on dicts without duplicated keys. -/
theorem dictEq_self (d : Ctx) (hnd : (d.map Prod.fst).Nodup) :
    dictEq d d = true := by
  unfold dictEq
  rw [Bool.and_self]
  rw [List.all_eq_true]
  intro p hp
  rw [decide_eq_true_eq]
  exact lookup_mem_of_nodup d p.1 p.2 hnd hp

/-- The sheet whose `REM TRACK_NUM` overrides make the active track's dict
value-equal to the album dict, after which `TITLE` misfires. -/
def titleDemoLines : List String :=
  ["REM TRACK_NUM x", "TRACK 01 AUDIO", "REM TRACK_NUM x", "TITLE \"Song\""]

/-- The parse result of `titleDemoLines`. -/
def titleDemoParsed : ParserState :=
  (cue_parse titleDemoLines).toOption.getD init_state

/-- C4 counterexample: on this successfully parsed sheet the `TITLE`
command after `TRACK` does not set the active track's `TITLE` field at all
(it sets the track's `ALBUM` instead, because the track's dict is
value-equal to the album dict at that point), refuting "a TITLE command
occurring after a TRACK command sets only the active track's TITLE
field". -/
theorem cmd_title_counterexample :
    cue_parse titleDemoLines = .ok titleDemoParsed
    ∧ List.lookup "TITLE" (titleDemoParsed.context_tracks.getD 0 []) = none
    ∧ List.lookup "ALBUM" (titleDemoParsed.context_tracks.getD 0 [])
        = some (.vstr "Song")
    ∧ List.lookup "ALBUM" titleDemoParsed.context_global
        = some (.vstr "Unknown") :=
  ⟨rfl, by decide, by decide, by decide⟩

/-- C4 (amended): `TITLE` before any `TRACK` sets the album's `ALBUM`
field; `TITLE` with an active track never changes the album context, and
sets the active track's `TITLE` field provided the track's field mapping is
not value-equal to the album context's (otherwise it sets the track's
`ALBUM` field instead, per the counterexample). -/
theorem cmd_title_contexts (st : ParserState) (args : String) :
    (st.current = none → (st.context_global.map Prod.fst).Nodup →
      cmd_title st args
        = { st with context_global :=
              (dictSet st.context_global "ALBUM" (Value.vstr (unquote args))) })
    ∧ (∀ i : Nat, st.current = some i →
        (cmd_title st args).context_global = st.context_global)
    ∧ (∀ i : Nat, st.current = some i →
        dictEq (st.context_tracks.getD i []) st.context_global = false →
        cmd_title st args
          = { st with context_tracks :=
                (st.context_tracks.set i
                  (dictSet (st.context_tracks.getD i []) "TITLE"
                    (Value.vstr (unquote args)))) }) := by
  refine ⟨?_, ?_, ?_⟩
  · intro hcur hnd
    have hglob : in_global_context st = true := by
      unfold in_global_context curCtx
      rw [hcur]
      exact dictEq_self st.context_global hnd
    unfold cmd_title
    rw [if_pos hglob]
    unfold setCur
    rw [hcur]
  · intro i hcur
    unfold cmd_title
    split
    · unfold setCur
      rw [hcur]
    · unfold setCur
      rw [hcur]
  · intro i hcur hne
    have hglob : in_global_context st = false := by
      unfold in_global_context curCtx
      rw [hcur]
      exact hne
    unfold cmd_title
    rw [if_neg (by simp [hglob])]
    unfold setCur
    rw [hcur]

/-- C4 witness: in the fresh global context, `TITLE "X"` sets `ALBUM`. -/
theorem cmd_title_contexts_witness :
    cmd_title init_state "\"X\""
      = { init_state with context_global :=
            (dictSet init_state.context_global "ALBUM"
              (Value.vstr (unquote "\"X\""))) } :=
  (cmd_title_contexts init_state "\"X\"").1 (by rfl) (by decide)

/-- A mid-parse reachable state where the active track's dict is
value-equal to the album dict. -/
def identDemoLines : List String :=
  ["REM TRACK_NUM y", "TRACK 02 AUDIO", "REM TRACK_NUM y"]

/-- The state of the parser after the command loop over
`identDemoLines`. -/
def identDemoMid : ParserState :=
  (List.foldlM process_line init_state identDemoLines).toOption.getD init_state

/-- C5 counterexample: a reachable parser state whose current context is a
track record (`current = some 0`) that the parser nevertheless classifies
as the global context, because `_in_global_context` compares by dict value
(`==`), not by object identity — refuting "a track context whose fields
happen to equal the album context's fields is still treated as a track
context, never as the global one". -/
theorem in_global_counterexample :
    List.foldlM process_line init_state identDemoLines = .ok identDemoMid
    ∧ identDemoMid.current = some 0
    ∧ dictEq (identDemoMid.context_tracks.getD 0 [])
        identDemoMid.context_global = true
    ∧ in_global_context identDemoMid = true :=
  ⟨rfl, by decide, by decide, by decide⟩

/-- C5 (amended): the parser decides whether the current context is the
global one by comparing field values (Python dict `==`) with the album
context, not by object identity: whenever the current context is a track
whose dict is value-equal to the album dict, the parser treats it as
global, and `TITLE` then writes that track's `ALBUM` field. -/
theorem in_global_context_by_value (st : ParserState) (args : String)
    (i : Nat)
    (hcur : st.current = some i)
    (heq : dictEq (st.context_tracks.getD i []) st.context_global = true) :
    in_global_context st = true
    ∧ cmd_title st args
        = { st with context_tracks :=
              (st.context_tracks.set i
                (dictSet (st.context_tracks.getD i []) "ALBUM"
                  (Value.vstr (unquote args)))) } := by
  have hglob : in_global_context st = true := by
    unfold in_global_context curCtx
    rw [hcur]
    exact heq
  refine ⟨hglob, ?_⟩
  unfold cmd_title
  rw [if_pos hglob]
  unfold setCur
  rw [hcur]

/-- A literal state whose single track context equals the album context. -/
def valueEqDemoSt : ParserState :=
  { context_global := init_state.context_global,
    context_tracks := [init_state.context_global],
    current := some 0, warnings := [] }

/-- C5 witness: the amended theorem applied to the literal state. -/
theorem in_global_context_by_value_witness :
    in_global_context valueEqDemoSt = true :=
  (in_global_context_by_value valueEqDemoSt "\"X\"" 0 (by rfl) (by decide)).1

/-!
### The batch orchestrator (`Deflacue`)

`process_cue`, the per-sheet loop of `Deflacue.do`, and `main`'s exception
boundary.  The filesystem is abstracted into an existence predicate, and
each SoX invocation is collected as a `SoxCall` record instead of spawning
a shell; directory creation and logging carry no data and are dropped.
-/

/-- Python `os.path.join(a, b)` for POSIX paths. -/
def os_path_join (a b : String) : String :=
  if strStartsWith b '/' then b
  else if a = "" || strEndsWith a "/" then a ++ b
  else a ++ "/" ++ b

/-- Python `str.zfill`: left-pad with zeros to the width, keeping a sign. -/
def zfill (s : String) (width : Nat) : String :=
  if width ≤ s.length then s
  else
    match s.data with
    | '-' :: rest =>
        "-" ++ String.mk (List.replicate (width - s.length) '0') ++ String.mk rest
    | '+' :: rest =>
        "+" ++ String.mk (List.replicate (width - s.length) '0') ++ String.mk rest
    | _ => String.mk (List.replicate (width - s.length) '0') ++ s

/-- Python `track['TITLE'].replace('/', '')`: every `/` removed, nothing
substituted. -/
def stripSlashes (s : String) : String :=
  String.mk (s.data.filter (fun c => c != '/'))

/-- One recorded `sox_extract_audio` invocation. -/
structure SoxCall where
  source : Value
  startPos : Value
  endPos : Value
  target : String
  metadata : Ctx
deriving DecidableEq, Repr

/-- The body of the per-track loop in `Deflacue.process_cue` (lines
345-352): the zero-padded number and slash-stripped title make the file
name; missing keys are `KeyError`s, a non-string `TITLE` would be an
`AttributeError` at `.replace`. -/
def track_to_call (bundle_path : String) (width : Nat) (track : Ctx) :
    Except PyErr SoxCall :=
  match List.lookup "TRACK_NUM" track with
  | none => .error .keyError
  | some tn =>
    match List.lookup "TITLE" track with
    | none => .error .keyError
    | some (.vstr title) =>
      match List.lookup "FILE" track with
      | none => .error .keyError
      | some f =>
        match List.lookup "POS_START_SAMPLES" track with
        | none => .error .keyError
        | some sp =>
          match List.lookup "POS_END_SAMPLES" track with
          | none => .error .keyError
          | some ep =>
            .ok ⟨f, sp, ep,
              os_path_join bundle_path
                (zfill (pyStr tn) width ++ " - " ++ stripSlashes title ++ ".flac"),
              track⟩
    | some _ => .error .attributeError

/-- The `for track in tracks` loop, stopping at the first exception. -/
def build_calls_loop (bundle_path : String) (width : Nat) :
    List Ctx → Except PyErr (List SoxCall)
  | [] => .ok []
  | t :: rest =>
    match track_to_call bundle_path width t with
    | .error e => .error e
    | .ok c =>
      match build_calls_loop bundle_path width rest with
      | .error e => .error e
      | .ok cs => .ok (c :: cs)

/-- Lines 332-352 of `Deflacue.process_cue`: the bundle directory is
`<target>/<PERFORMER>/<DATE - ALBUM, or ALBUM when DATE is None>`, then
one SoX call per track (directory creation dropped). -/
def build_sox_calls (cd_info : Ctx) (tracks : List Ctx) (target_path : String) :
    Except PyErr (List SoxCall) :=
  match List.lookup "ALBUM" cd_info with
  | none => .error .keyError
  | some album =>
    match List.lookup "DATE" cd_info with
    | none => .error .keyError
    | some date =>
      let titleV : Value :=
        match date with
        | .vnone => album
        | d => .vstr (pyStr d ++ " - " ++ pyStr album)
      match List.lookup "PERFORMER" cd_info with
      | none => .error .keyError
      | some performer =>
        match performer, titleV with
        | .vstr p, .vstr t =>
          build_calls_loop (os_path_join (os_path_join target_path p) t)
            (toString tracks.length).length tracks
        | _, _ => .error .typeError

/-- A cue file's content as seen after the `open`/`readlines` attempt. -/
inductive SheetContent where
  | undecodable
  | decoded (lines : List String)
deriving DecidableEq, Repr

/-- Embeds `CueParser.__init__` including the decode guard: an undecodable file
raises `DeflacueError`. -/
def cue_parser_init : SheetContent → Except PyErr ParserState
  | .undecodable => .error .deflacueError
  | .decoded lines => cue_parse lines

/-- Embeds `Deflacue.process_cue`: parse, check that the album's `FILE` exists
(the `fsExists` predicate abstracts `os.path.exists`; `os.path.exists(None)`
is a `TypeError`), returning `none` for the logged "source file not found"
skip, otherwise the per-track SoX calls. -/
def process_cue (fsExists : String → Bool) (sheet : SheetContent)
    (target_path : String) : Except PyErr (Option (List SoxCall)) :=
  match cue_parser_init sheet with
  | .error e => .error e
  | .ok st =>
    match List.lookup "FILE" st.context_global with
    | none => .error .keyError
    | some (.vstr f) =>
      if fsExists f then
        match build_sox_calls st.context_global st.context_tracks target_path with
        | .error e => .error e
        | .ok calls => .ok (some calls)
      else .ok none
    | some _ => .error .typeError

/-- The per-sheet loop of `Deflacue.do`: each sheet is processed in turn
with `process_cue`, and the source wraps the call in no `try`/`except`, so
any exception abandons the loop and the remaining sheets.  Directory
discovery, per-directory target computation and `os.chdir` bookkeeping are
orchestration around this loop, abstracted into the already-ordered sheet
list and the fixed target path. -/
def deflacue_do (fsExists : String → Bool) :
    List SheetContent → String → Except PyErr (List (Option (List SoxCall)))
  | [], _ => .ok []
  | sheet :: rest, target =>
    match process_cue fsExists sheet target with
    | .error e => .error e
    | .ok r =>
      match deflacue_do fsExists rest target with
      | .error e => .error e
      | .ok rs => .ok (r :: rs)

/-- Embeds `main`: its `try`/`except DeflacueError` catches and logs only
`DeflacueError`; every other exception escapes the program. -/
def main_model (fsExists : String → Bool) (sheets : List SheetContent)
    (target_path : String) :
    Except PyErr (Option (List (Option (List SoxCall)))) :=
  match deflacue_do fsExists sheets target_path with
  | .error .deflacueError => .ok none
  | .error e => .error e
  | .ok r => .ok (some r)

/-- Index of the last occurrence of `c` in `cs`. -/
def rfindIdxAux (c : Char) : List Char → Nat → Option Nat
  | [], _ => none
  | x :: xs, i =>
    match rfindIdxAux c xs (i + 1) with
    | some j => some j
    | none => if x == c then some i else none

/-- Python `s.rfind(c)` as an `Option`. -/
def rfindIdx (cs : List Char) (c : Char) : Option Nat := rfindIdxAux c cs 0

/-- The extension part of `os.path.splitext` for POSIX paths: the suffix
from the last `.`, provided it lies after the last `/` and the basename
has a non-`.` character before it (leading dots never start an
extension). -/
def splitext_ext (p : String) : String :=
  match rfindIdx p.data '.' with
  | none => ""
  | some d =>
    match rfindIdx p.data '/' with
    | none =>
        if (List.range' 0 d).any (fun k => p.data.getD k '.' != '.') then
          String.mk (p.data.drop d)
        else ""
    | some sidx =>
        if sidx + 1 ≤ d then
          if (List.range' (sidx + 1) (d - (sidx + 1))).any
              (fun k => p.data.getD k '.' != '.') then
            String.mk (p.data.drop d)
          else ""
        else ""

/-- Code-point lexicographic order on character lists (Python string
comparison). -/
def chLt : List Char → List Char → Bool
  | [], [] => false
  | [], _ :: _ => true
  | _ :: _, [] => false
  | a :: as, b :: bs => if a < b then true else if b < a then false else chLt as bs

/-- Stable insertion keeping ascending code-point order. -/
def insertSorted (x : String) : List String → List String
  | [] => [x]
  | y :: ys => if chLt x.data y.data then x :: y :: ys else y :: insertSorted x ys

/-- Python `sorted` on strings (ascending, stable). -/
def sortStrings : List String → List String
  | [] => []
  | x :: xs => insertSorted x (sortStrings xs)

/-- Embeds `Deflacue.filter_target_extensions`: drops every directory whose path
ends with the literal `deflacue`, and keeps, per remaining directory, the
sorted files with a `.cue` extension. -/
def filter_target_extensions (files_dict : List (String × List String)) :
    List (String × List String) :=
  (files_dict.filter (fun p => !(strEndsWith p.1 "deflacue"))).map
    (fun p => (p.1, sortStrings (p.2.filter (fun f => splitext_ext f == ".cue"))))

/-- The first result of the batch run over only the well-formed demo
sheet. -/
def goodDemoRun : List (Option (List SoxCall)) :=
  (deflacue_do (fun _ => true) [.decoded demoLines] "/t").toOption.getD []

/-- C6 counterexample: in a batch of two sheets whose first has a malformed
command line, the parse failure propagates out of the whole per-sheet loop
as an uncaught `ValueError`-class exception: the run yields no per-sheet
results at all, although the second sheet alone processes fine — refuting
"caught and logged at the orchestrator's per-sheet boundary and never
propagate past it ... leaves processing of all remaining sheets
unaffected". -/
theorem batch_error_propagates_counterexample :
    deflacue_do (fun _ => true) [.decoded ["REM"], .decoded demoLines] "/t"
      = .error .valueError
    ∧ deflacue_do (fun _ => true) [.decoded demoLines] "/t" = .ok goodDemoRun
    ∧ goodDemoRun.length = 1 :=
  ⟨rfl, rfl, by decide⟩

/-- C6 (amended): sheet-scoped parse failures are not caught at the
per-sheet boundary: once every earlier sheet has processed, a failing sheet
aborts the batch with its exception and the remaining sheets are never
processed; `main` catches (and logs) only the `DeflacueError` raised for
undecodable content — every other parse failure propagates past `main`
as well. -/
theorem batch_error_propagation (fsExists : String → Bool)
    (pre post : List SheetContent) (s : SheetContent) (target : String)
    (e : PyErr) (rs : List (Option (List SoxCall)))
    (hpre : deflacue_do fsExists pre target = .ok rs)
    (hfail : process_cue fsExists s target = .error e) :
    deflacue_do fsExists (pre ++ s :: post) target = .error e
    ∧ main_model fsExists (pre ++ s :: post) target
        = (if e = .deflacueError then .ok none else .error e) := by
  have h1 : deflacue_do fsExists (pre ++ s :: post) target = .error e := by
    induction pre generalizing rs with
    | nil =>
      show deflacue_do fsExists (s :: post) target = .error e
      unfold deflacue_do
      rw [hfail]
    | cons sh pre' ih =>
      unfold deflacue_do at hpre
      revert hpre
      split
      · intro hpre
        exact Except.noConfusion hpre
      · rename_i r hr
        split
        · intro hpre
          exact Except.noConfusion hpre
        · rename_i rs' hrs
          intro _
          show deflacue_do fsExists (sh :: (pre' ++ s :: post)) target = .error e
          unfold deflacue_do
          rw [hr, ih rs' hrs]
  refine ⟨h1, ?_⟩
  unfold main_model
  rw [h1]
  cases e <;> rfl

/-- C6 amended-claim witness: the single malformed sheet `["REM"]` aborts
an otherwise empty batch with the uncaught `ValueError`. -/
theorem batch_error_propagation_witness :
    deflacue_do (fun _ => true) ([] ++ SheetContent.decoded ["REM"] :: []) "/t"
      = .error .valueError :=
  (batch_error_propagation (fun _ => true) [] [] (.decoded ["REM"]) "/t"
    .valueError [] (by rfl) (by rfl)).1

/-- The per-track field requirements under which the extraction loop of
`process_cue` cannot raise: present `TRACK_NUM`, `FILE`,
`POS_START_SAMPLES` and `POS_END_SAMPLES`, and a string `TITLE`. -/
def trackOkB (t : Ctx) : Bool :=
  (List.lookup "TRACK_NUM" t).isSome
  && (match List.lookup "TITLE" t with
      | some (.vstr _) => true
      | _ => false)
  && (List.lookup "FILE" t).isSome
  && (List.lookup "POS_START_SAMPLES" t).isSome
  && (List.lookup "POS_END_SAMPLES" t).isSome

/-- On a well-formed track, `track_to_call` succeeds and its target is the
zero-padded number, a separator, the slash-stripped title and `.flac`,
joined under the bundle directory. -/
theorem track_to_call_target (bp : String) (w : Nat) (t : Ctx)
    (n : Int) (ttl : String) (f sp ep : Value)
    (hn : List.lookup "TRACK_NUM" t = some (.vint n))
    (ht : List.lookup "TITLE" t = some (.vstr ttl))
    (hf : List.lookup "FILE" t = some f)
    (hs : List.lookup "POS_START_SAMPLES" t = some sp)
    (he : List.lookup "POS_END_SAMPLES" t = some ep) :
    track_to_call bp w t
      = .ok ⟨f, sp, ep,
          os_path_join bp
            (zfill (toString n) w ++ " - " ++ stripSlashes ttl ++ ".flac"),
          t⟩ := by
  unfold track_to_call
  rw [hn, ht, hf, hs, he]
  rfl

/-- The extraction loop succeeds on well-formed tracks and its `i`-th call
comes from the `i`-th track. -/
theorem build_calls_loop_ok (bp : String) (w : Nat) (tracks : List Ctx)
    (hok : tracks.all trackOkB = true) :
    ∃ calls, build_calls_loop bp w tracks = .ok calls
      ∧ calls.length = tracks.length
      ∧ ∀ (i : Nat) (t : Ctx), tracks[i]? = some t →
          ∃ c, calls[i]? = some c ∧ track_to_call bp w t = .ok c := by
  induction tracks with
  | nil =>
    refine ⟨[], rfl, rfl, ?_⟩
    intro i t ht
    simp at ht
  | cons t0 rest ih =>
    rw [List.all_cons, Bool.and_eq_true] at hok
    obtain ⟨calls', hc', hlen', hat'⟩ := ih hok.2
    have hok0 := hok.1
    unfold trackOkB at hok0
    simp only [Bool.and_eq_true, Option.isSome_iff_exists] at hok0
    obtain ⟨⟨⟨⟨⟨tn, htn⟩, httl⟩, ⟨f, hf⟩⟩, ⟨sp, hsp⟩⟩, ⟨ep, hep⟩⟩ := hok0
    have hcall : ∃ c0, track_to_call bp w t0 = .ok c0 := by
      revert httl
      split
      · rename_i ttl httl'
        intro _
        unfold track_to_call
        rw [htn, httl', hf, hsp, hep]
        exact ⟨_, rfl⟩
      · intro hfalse
        exact Bool.noConfusion hfalse
    obtain ⟨c0, hc0⟩ := hcall
    refine ⟨c0 :: calls', ?_, by simp [hlen'], ?_⟩
    · unfold build_calls_loop
      rw [hc0, hc']
    · intro i t ht
      cases i with
      | zero =>
        simp at ht
        subst ht
        exact ⟨c0, by simp, hc0⟩
      | succ m =>
        simp at ht
        obtain ⟨c, hcm, hcall⟩ := hat' m t ht
        exact ⟨c, by simpa using hcm, hcall⟩

/-- C9: for every processed sheet, each track's extraction target is
`<target>/<PERFORMER>/<DATE - ALBUM, or ALBUM when DATE is None>/<NN> -
<TITLE>.flac`, where `NN` is the track's number zero-padded to the width
of the decimal representation of the track count, and every `/` character
of the title is removed (stripped, not replaced). -/
theorem output_path_spec (cd : Ctx) (tracks : List Ctx) (tp p alb : String)
    (hp : List.lookup "PERFORMER" cd = some (.vstr p))
    (halb : List.lookup "ALBUM" cd = some (.vstr alb))
    (hok : tracks.all trackOkB = true) :
    (List.lookup "DATE" cd = some .vnone →
      ∃ calls, build_sox_calls cd tracks tp = .ok calls
        ∧ calls.length = tracks.length
        ∧ ∀ (i : Nat) (t : Ctx) (n : Int) (ttl : String),
            tracks[i]? = some t →
            List.lookup "TRACK_NUM" t = some (.vint n) →
            List.lookup "TITLE" t = some (.vstr ttl) →
            (calls[i]?).map SoxCall.target
              = some (os_path_join (os_path_join (os_path_join tp p) alb)
                  (zfill (toString n) (toString tracks.length).length
                    ++ " - " ++ stripSlashes ttl ++ ".flac")))
    ∧ (∀ dstr : String, List.lookup "DATE" cd = some (.vstr dstr) →
        ∃ calls, build_sox_calls cd tracks tp = .ok calls
          ∧ calls.length = tracks.length
          ∧ ∀ (i : Nat) (t : Ctx) (n : Int) (ttl : String),
              tracks[i]? = some t →
              List.lookup "TRACK_NUM" t = some (.vint n) →
              List.lookup "TITLE" t = some (.vstr ttl) →
              (calls[i]?).map SoxCall.target
                = some (os_path_join
                    (os_path_join (os_path_join tp p) (dstr ++ " - " ++ alb))
                    (zfill (toString n) (toString tracks.length).length
                      ++ " - " ++ stripSlashes ttl ++ ".flac"))) := by
  constructor
  · intro hdate
    obtain ⟨calls, hc, hlen, hat⟩ :=
      build_calls_loop_ok (os_path_join (os_path_join tp p) alb)
        (toString tracks.length).length tracks hok
    refine ⟨calls, ?_, hlen, ?_⟩
    · unfold build_sox_calls
      rw [halb, hdate, hp]
      exact hc
    · intro i t n ttl hti htn httl
      obtain ⟨c, hci, hcall⟩ := hat i t hti
      obtain ⟨f, hf⟩ := Option.isSome_iff_exists.mp (by
        have := List.all_eq_true.mp hok t (List.getElem?_mem hti)
        unfold trackOkB at this
        simp only [Bool.and_eq_true] at this
        exact this.1.1.2)
      obtain ⟨sp, hsp⟩ := Option.isSome_iff_exists.mp (by
        have := List.all_eq_true.mp hok t (List.getElem?_mem hti)
        unfold trackOkB at this
        simp only [Bool.and_eq_true] at this
        exact this.1.2)
      obtain ⟨ep, hep⟩ := Option.isSome_iff_exists.mp (by
        have := List.all_eq_true.mp hok t (List.getElem?_mem hti)
        unfold trackOkB at this
        simp only [Bool.and_eq_true] at this
        exact this.2)
      rw [track_to_call_target _ _ _ n ttl f sp ep htn httl hf hsp hep] at hcall
      injection hcall with hcall
      rw [hci, ← hcall]
      rfl
  · intro dstr hdate
    obtain ⟨calls, hc, hlen, hat⟩ :=
      build_calls_loop_ok
        (os_path_join (os_path_join tp p) (dstr ++ " - " ++ alb))
        (toString tracks.length).length tracks hok
    refine ⟨calls, ?_, hlen, ?_⟩
    · unfold build_sox_calls
      rw [halb, hdate, hp]
      exact hc
    · intro i t n ttl hti htn httl
      obtain ⟨c, hci, hcall⟩ := hat i t hti
      obtain ⟨f, hf⟩ := Option.isSome_iff_exists.mp (by
        have := List.all_eq_true.mp hok t (List.getElem?_mem hti)
        unfold trackOkB at this
        simp only [Bool.and_eq_true] at this
        exact this.1.1.2)
      obtain ⟨sp, hsp⟩ := Option.isSome_iff_exists.mp (by
        have := List.all_eq_true.mp hok t (List.getElem?_mem hti)
        unfold trackOkB at this
        simp only [Bool.and_eq_true] at this
        exact this.1.2)
      obtain ⟨ep, hep⟩ := Option.isSome_iff_exists.mp (by
        have := List.all_eq_true.mp hok t (List.getElem?_mem hti)
        unfold trackOkB at this
        simp only [Bool.and_eq_true] at this
        exact this.2)
      rw [track_to_call_target _ _ _ n ttl f sp ep htn httl hf hsp hep] at hcall
      injection hcall with hcall
      rw [hci, ← hcall]
      rfl

/-- The extraction calls built for the demo sheet. -/
def demoCalls : List SoxCall :=
  (build_sox_calls demoParsed.context_global demoParsed.context_tracks
    "/t").toOption.getD []

/-- C9 witness: the first demo track's target path. -/
theorem output_path_spec_witness :
    (demoCalls[0]?).map SoxCall.target
      = some (os_path_join
          (os_path_join (os_path_join "/t" "Artist") "Album")
          (zfill (toString (1 : Int))
              (toString demoParsed.context_tracks.length).length
            ++ " - " ++ stripSlashes "Song One" ++ ".flac")) := by
  obtain ⟨calls, hc, hlen, hat⟩ :=
    (output_path_spec demoParsed.context_global demoParsed.context_tracks
      "/t" "Artist" "Album" (by decide) (by decide) (by decide)).1 (by decide)
  have hcd : demoCalls = calls := by
    unfold demoCalls
    rw [hc]
    rfl
  rw [hcd]
  exact hat 0 (demoParsed.context_tracks.getD 0 []) 1 "Song One"
    (by decide) (by decide) (by decide)

/-- C10: every directory whose path ends with the literal string
`deflacue` — including directories merely suffixed with it — is dropped by
the cue-file filtering, whatever its file list. -/
theorem deflacue_dirs_excluded (files_dict : List (String × List String))
    (d : String) (l : List String)
    (hd : strEndsWith d "deflacue" = true) :
    (d, l) ∉ filter_target_extensions files_dict := by
  intro hmem
  unfold filter_target_extensions at hmem
  obtain ⟨q, hq, he⟩ := List.mem_map.mp hmem
  obtain ⟨_, hflt⟩ := List.mem_filter.mp hq
  have hq1 : q.1 = d := congrArg Prod.fst he
  rw [hq1, hd] at hflt
  exact Bool.noConfusion hflt

/-- C10 witness: a `mydeflacue` directory with a cue file inside is
excluded. -/
theorem deflacue_dirs_excluded_witness :
    ("/a/mydeflacue", ["x.cue"])
      ∉ filter_target_extensions [("/a/mydeflacue", ["x.cue"])] :=
  deflacue_dirs_excluded [("/a/mydeflacue", ["x.cue"])] "/a/mydeflacue"
    ["x.cue"] (by decide)

end Deflacue
